import Mathlib

/-!
# Nexus Chat server — shallow embedding

A shallow embedding of `src/server/server.py` (the Nexus chat server).
Python dicts become association lists over `String` keys (`lookupM`,
`updM`, `delM` mirror `d[k]`, `d[k] = v`, `del d[k]`); the `defaultdict(set)`
`room_users` becomes an association list of duplicate-free member lists;
each request handler becomes a pure function from server state to
(new state, list of packets sent, each tagged with the username whose
connection receives it).  Timestamps (`ts()` / `full_ts()`) are environment
inputs and are threaded in as explicit string arguments.  The server
processes each incoming record atomically under one global lock, so
reachability is modelled as a sequence of whole-request steps.
-/

namespace Nexus

/-- A room message: JSON object `{"from": …, "text": …, "ts": …}`. -/
structure Message where
  fromUser : String
  text : String
  ts : String
deriving DecidableEq

/-- A direct message entry:
`{"from": …, "to": …, "text": …, "ts": …, "full_ts": …}`. -/
structure DMessage where
  fromUser : String
  toUser : String
  text : String
  ts : String
  full_ts : String
deriving DecidableEq

/-- `db["users"][uname]` : `{"pw": …, "joined": …, "bio": …}`. -/
structure UserData where
  pw : String
  joined : String
  bio : String
deriving DecidableEq

/-- `db["rooms"][name]` : `{"topic": …, "history": […], "owner": …}`. -/
structure RoomData where
  topic : String
  history : List Message
  owner : String
deriving DecidableEq

/-- `clients[username]` : the per-session record; only the mutable
`"room"` field is state (the connection handle is identified with the
username, the address and thread carry no semantics). -/
structure ClientInfo where
  room : String
deriving DecidableEq

/-- One element of `room_list_payload()`. -/
structure RoomSummary where
  name : String
  topic : String
  users : Nat
  owner : String
deriving DecidableEq

/-- Server→client records (the JSON packets built in `server.py`). -/
inductive Packet where
  | auth (ok : Bool) (msg : String) (username : Option String)
      (rooms : List RoomSummary) (online : List String)
  | joined (room topic : String) (history : List Message) (users : List String)
  | msg (room : String) (m : Message)
  | dm (m : DMessage)
  | system (msg : String)
  | roomCreated (room topic owner msg : String)
  | rooms (rooms : List RoomSummary)
  | online (users : List String)
  | history (room : String) (messages : List Message)
  | dmHistoryPkt (withUser : String) (messages : List DMessage)
  | whoisPkt (user joined bio : String) (isOnline : Bool) (room : String)
  | pong
deriving DecidableEq

/-- A packet together with the username of the connection it is sent to. -/
abbrev Send := String × Packet

/-- Python dict lookup `m.get(k)` on an association list. -/
def lookupM {β : Type} (m : List (String × β)) (k : String) : Option β :=
  match m with
  | [] => none
  | (k', v) :: rest => if k' = k then some v else lookupM rest k

/-- Python dict assignment `m[k] = v`: replace the first binding of `k`,
or append a fresh binding at the end (dicts preserve insertion order). -/
def updM {β : Type} (m : List (String × β)) (k : String) (v : β) :
    List (String × β) :=
  match m with
  | [] => [(k, v)]
  | (k', v') :: rest =>
    if k' = k then (k, v) :: rest else (k', v') :: updM rest k v

/-- Python `del m[k]`: drop the first binding of `k`. -/
def delM {β : Type} (m : List (String × β)) (k : String) :
    List (String × β) :=
  match m with
  | [] => []
  | (k', v') :: rest => if k' = k then rest else (k', v') :: delM rest k

/-- The whole mutable server state: the persisted document
(`users`, `rooms`, `dm_history` of `db`) plus the runtime maps
(`clients`, `room_users`). -/
structure ServerState where
  users : List (String × UserData)
  rooms : List (String × RoomData)
  dm_history : List (String × List DMessage)
  clients : List (String × ClientInfo)
  room_users : List (String × List String)
deriving DecidableEq

/-- `room_users[room]` with the `defaultdict(set)` default. -/
def ruGet (st : ServerState) (room : String) : List String :=
  (lookupM st.room_users room).getD []

/-- `clients[username]["room"]`.  Total with default `"general"`, which is
literally the `_disconnect` read `clients.get(username, {}).get("room",
"general")`; every other caller only reads it for an online username. -/
def curRoom (st : ServerState) (u : String) : String :=
  ((lookupM st.clients u).map ClientInfo.room).getD "general"

/-- Python list slice `l[start:]` for a possibly negative `start`. -/
def pySliceFrom {α : Type} (l : List α) (start : Int) : List α :=
  let n : Int := l.length
  let s : Int := if start < 0 then max (n + start) 0 else min start n
  l.drop s.toNat

/-- Python `str.strip()`: drop leading and trailing whitespace.  Implemented
on the character list so that it evaluates inside the kernel. -/
def pyStrip (s : String) : String :=
  String.mk (((s.data.dropWhile Char.isWhitespace).reverse.dropWhile
    Char.isWhitespace).reverse)

/-- Python `str.lower()` (the ASCII case mapping, which covers every string
the server compares). -/
def pyLower (s : String) : String := String.mk (s.data.map Char.toLower)

/-- The `.strip().lower()` normalization applied to usernames, room names
and lookup targets. -/
def pyNorm (s : String) : String := pyLower (pyStrip s)

/-- Python `s[:n]` on a string. -/
def pyTake (s : String) (n : Nat) : String := String.mk (s.data.take n)

/-- Python `s.replace(" ", "-")` (the pattern is a single character). -/
def pyReplaceSpace (s : String) : String :=
  String.mk (s.data.map fun c => if c = ' ' then '-' else c)

/-- `if len(l) > cap: l = l[-cap:]` — the history-trimming idiom used for
room histories (cap 500) and DM threads (cap 200). -/
def capTrim {α : Type} (cap : Nat) (l : List α) : List α :=
  if l.length > cap then pySliceFrom l (-(cap : Int)) else l

/-- `hashlib.sha256(pw.encode()).hexdigest()`, modelled as an abstract
injective tagging of the password; no claim depends on digest values. -/
def hash_pw (pw : String) : String := "sha256:" ++ pw

/-- The default document returned by `load_data()` on first startup. -/
def initialState : ServerState :=
  { users := [],
    rooms :=
      [("general", { topic := "General chat for everyone", history := [], owner := "system" }),
       ("random", { topic := "Random topics", history := [], owner := "system" }),
       ("tech", { topic := "Technology discussions", history := [], owner := "system" })],
    dm_history := [],
    clients := [],
    room_users := [] }

/-- A client→server record inside the message loop, as read from JSON.
Fields mirror the keys the handlers read with `pkt.get(…)`; a field the
JSON object omits is the `get` default (`""` for the plain string fields,
`none` for `room` and `limit`, whose defaults differ per call site).
The `tsv` / `ftsv` fields carry the environment clock values `ts()` and
`full_ts()` observed while the record is handled. -/
structure InPkt where
  tag : String
  text : String
  room : Option String
  name : String
  topic : String
  toUser : String
  withUser : String
  user : String
  bio : String
  limit : Option Int
  tsv : String
  ftsv : String
deriving DecidableEq

/-- An `InPkt` with every optional JSON key absent. -/
def basePkt : InPkt :=
  { tag := "", text := "", room := none, name := "", topic := "",
    toUser := "", withUser := "", user := "", bio := "", limit := none,
    tsv := "", ftsv := "" }

/-- `broadcast_room(room, pkt, exclude)`: send to every member of the
room's membership snapshot that still has a client entry, skipping
`exclude`. -/
def broadcast_room (st : ServerState) (room : String) (pkt : Packet)
    (exclude : Option String) : List Send :=
  (ruGet st room).filterMap fun uname =>
    if some uname = exclude then none
    else if (lookupM st.clients uname).isSome then some (uname, pkt)
    else none

/-- `broadcast_all(pkt, exclude)`: send to every online user but `exclude`. -/
def broadcast_all (st : ServerState) (pkt : Packet) (exclude : Option String) :
    List Send :=
  (st.clients.map Prod.fst).filterMap fun uname =>
    if some uname = exclude then none
    else if (lookupM st.clients uname).isSome then some (uname, pkt)
    else none

/-- `online_list()`. -/
def online_list (st : ServerState) : List String := st.clients.map Prod.fst

/-- `room_list_payload()`. -/
def room_list_payload (st : ServerState) : List RoomSummary :=
  st.rooms.map fun p =>
    { name := p.1, topic := p.2.topic, users := (ruGet st p.1).length,
      owner := p.2.owner }

/-- `append_history(room, entry)`: append, then cap at 500 keeping the
most recent (`history[-500:]`).  The room always exists at the call site;
a missing room (Python `KeyError`) leaves the state unchanged. -/
def append_history (st : ServerState) (room : String) (entry : Message) :
    ServerState :=
  match lookupM st.rooms room with
  | none => st
  | some rd =>
    let h := capTrim 500 (rd.history ++ [entry])
    { st with rooms := updM st.rooms room { rd with history := h } }

/-- `_join_room(username, conn, room_name, silent)`. -/
def join_room (st : ServerState) (username : String) (room_name : String)
    (silent : Bool) : ServerState × List Send :=
  match lookupM st.rooms room_name with
  | none =>
    (st, [(username, .system ("Room '" ++ room_name ++ "' does not exist."))])
  | some rd =>
    let old_room := curRoom st username
    if old_room = room_name then
      (st, [(username, .system ("You are already in #" ++ room_name ++ "."))])
    else
      let ru := updM st.room_users old_room ((ruGet st old_room).erase username)
      let newMembers :=
        let l := ruGet st room_name
        if username ∈ l then l else l ++ [username]
      let ru := updM ru room_name newMembers
      let cl :=
        match lookupM st.clients username with
        | some ci => updM st.clients username { ci with room := room_name }
        | none => st.clients
      let st' : ServerState := { st with room_users := ru, clients := cl }
      let leftOuts :=
        if silent then []
        else broadcast_room st' old_room
          (.system ("← " ++ username ++ " left #" ++ old_room)) (some username)
      let joinOuts :=
        broadcast_room st' room_name
          (.system ("→ " ++ username ++ " joined #" ++ room_name)) (some username)
      let joinedPkt : Send :=
        (username, .joined room_name rd.topic (pySliceFrom rd.history (-50))
          (ruGet st' room_name))
      (st', leftOuts ++ joinOuts ++ [joinedPkt])

/-- `_handle_msg(username, conn, pkt)`. -/
def handle_msg (st : ServerState) (username : String) (p : InPkt) :
    ServerState × List Send :=
  let room := curRoom st username
  let text := pyStrip p.text
  if text = "" then (st, [])
  else if text.length > 1000 then
    (st, [(username, .system "Message too long (max 1000 chars).")])
  else
    let entry : Message := { fromUser := username, text := text, ts := p.tsv }
    let st' := append_history st room entry
    (st', broadcast_room st' room (.msg room entry) none)

/-- `_create_room(username, conn, pkt)`. -/
def create_room (st : ServerState) (username : String) (p : InPkt) :
    ServerState × List Send :=
  let name := pyReplaceSpace (pyNorm p.name)
  let topic := pyTake (pyStrip p.topic) 200
  if name = "" ∨ name.length < 2 then
    (st, [(username, .system "Room name must be ≥ 2 characters.")])
  else if (lookupM st.rooms name).isSome then
    (st, [(username, .system ("Room #" ++ name ++ " already exists."))])
  else
    let newRoom : RoomData := { topic := topic, history := [], owner := username }
    let st' : ServerState := { st with rooms := updM st.rooms name newRoom }
    let ann := broadcast_all st'
      (.roomCreated name topic username
        ("✦ New room #" ++ name ++ " created by " ++ username ++ "!")) none
    let (st'', joinOuts) := join_room st' username name false
    (st'', ann ++ joinOuts)

/-- One iteration of `_delete_room`'s eviction loop: join `uname` into
`general` if they still have a client entry, accumulating the packets. -/
def evictStep (acc : ServerState × List Send) (uname : String) :
    ServerState × List Send :=
  match lookupM acc.1.clients uname with
  | some _ =>
    let r := join_room acc.1 uname "general" false
    (r.1, acc.2 ++ r.2)
  | none => acc

/-- `_delete_room(username, conn, pkt)`.  Note the source order of the
checks: NotFound, then owner, then the protected default rooms. -/
def delete_room (st : ServerState) (username : String) (p : InPkt) :
    ServerState × List Send :=
  let name := pyNorm p.name
  match lookupM st.rooms name with
  | none => (st, [(username, .system ("Room #" ++ name ++ " not found."))])
  | some rd =>
    if rd.owner ≠ username then
      (st, [(username, .system "Only the owner can delete a room.")])
    else if name = "general" ∨ name = "random" ∨ name = "tech" then
      (st, [(username, .system "Cannot delete default rooms.")])
    else
      let evicted := ruGet st name
      let evr := evicted.foldl evictStep (st, [])
      let st' : ServerState := { evr.1 with rooms := delM evr.1.rooms name }
      (st', evr.2 ++ broadcast_all st'
        (.system ("✦ Room #" ++ name ++ " was deleted by " ++ username ++ ".")) none)

/-- The canonical DM thread key `":".join(sorted([a, b]))`. -/
def dmKey (a b : String) : String :=
  if a ≤ b then a ++ ":" ++ b else b ++ ":" ++ a

/-- `_handle_dm(username, conn, pkt)`. -/
def handle_dm (st : ServerState) (username : String) (p : InPkt) :
    ServerState × List Send :=
  let target := pyNorm p.toUser
  let text := pyStrip p.text
  if target = "" ∨ text = "" then (st, [])
  else if target = username then
    (st, [(username, .system "You can't DM yourself.")])
  else
    let targetOnline := (lookupM st.clients target).isSome
    let entry : DMessage :=
      { fromUser := username, toUser := target, text := text,
        ts := p.tsv, full_ts := p.ftsv }
    let key := dmKey username target
    let h := capTrim 200 (((lookupM st.dm_history key).getD []) ++ [entry])
    let st' : ServerState := { st with dm_history := updM st.dm_history key h }
    let outs :=
      (username, Packet.dm entry) ::
        (if targetOnline then [(target, Packet.dm entry)]
         else [(username, .system ("✉ " ++ target ++ " is offline. Message saved."))])
    (st', outs)

/-- `_send_history(username, conn, pkt)`.  `pkt.get("room") or
clients[username]["room"]` falls back to the current room when the key is
absent or its value is falsy (the empty string). -/
def send_history (st : ServerState) (username : String) (p : InPkt) :
    ServerState × List Send :=
  let room :=
    match p.room with
    | some r => if r = "" then curRoom st username else r
    | none => curRoom st username
  let limit : Int := min (p.limit.getD 50) 200
  match lookupM st.rooms room with
  | none => (st, [(username, .system ("Room #" ++ room ++ " not found."))])
  | some rd =>
    (st, [(username, .history room (pySliceFrom rd.history (-limit)))])

/-- `_send_dm_history(username, conn, pkt)`. -/
def send_dm_history (st : ServerState) (username : String) (p : InPkt) :
    ServerState × List Send :=
  let target := pyNorm p.withUser
  let key := dmKey username target
  let msgs := pySliceFrom ((lookupM st.dm_history key).getD []) (-50)
  (st, [(username, .dmHistoryPkt target msgs)])

/-- `_whois(username, conn, pkt)`. -/
def whois (st : ServerState) (username : String) (p : InPkt) :
    ServerState × List Send :=
  let target := pyNorm p.user
  match lookupM st.users target with
  | none => (st, [(username, .system ("User '" ++ target ++ "' not found."))])
  | some u =>
    let onl := (lookupM st.clients target).isSome
    let room := if onl then curRoom st target else "—"
    (st, [(username, .whoisPkt target u.joined u.bio onl room)])

/-- The `set_bio` branch of the message loop; the authenticated username
is always a key of `db["users"]` (registration precedes any session). -/
def set_bio (st : ServerState) (username : String) (p : InPkt) :
    ServerState × List Send :=
  match lookupM st.users username with
  | none => (st, [])
  | some u =>
    let bio := pyTake p.bio 200
    ({ st with users := updM st.users username { u with bio := bio } },
     [(username, .system "Bio updated.")])

/-- The `type` tags the message loop dispatches on. -/
def knownTags : List String :=
  ["msg", "join", "create_room", "delete_room", "dm", "history",
   "dm_history", "rooms", "online", "whois", "set_bio", "ping"]

/-- The `if t == … / elif …` dispatch chain of the message loop in
`handle_client`; a record whose tag matches no branch falls through the
chain: nothing is sent, no state changes, the loop keeps running. -/
def dispatch (st : ServerState) (username : String) (p : InPkt) :
    ServerState × List Send :=
  if p.tag = "msg" then handle_msg st username p
  else if p.tag = "join" then join_room st username (p.room.getD "general") true
  else if p.tag = "create_room" then create_room st username p
  else if p.tag = "delete_room" then delete_room st username p
  else if p.tag = "dm" then handle_dm st username p
  else if p.tag = "history" then send_history st username p
  else if p.tag = "dm_history" then send_dm_history st username p
  else if p.tag = "rooms" then (st, [(username, .rooms (room_list_payload st))])
  else if p.tag = "online" then (st, [(username, .online (online_list st))])
  else if p.tag = "whois" then whois st username p
  else if p.tag = "set_bio" then set_bio st username p
  else if p.tag = "ping" then (st, [(username, .pong)])
  else (st, [])

/-- The success tail of the auth phase of `handle_client`: insert the
session (current room preset to `"general"`), send the positive auth
acknowledgment, auto-join `"general"` (`silent=False`), then notify the
other online users.  Returns the opened session's username. -/
def open_session (st : ServerState) (username : String) :
    ServerState × List Send × Option String :=
  let st' : ServerState :=
    { st with clients := updM st.clients username { room := "general" } }
  let welcome : Send :=
    (username, .auth true ("Welcome to NEXUS CHAT, " ++ username ++ "!")
      (some username) (room_list_payload st') (online_list st'))
  let jr := join_room st' username "general" false
  let notifyOuts := broadcast_all jr.1
    (.system ("◉ " ++ username ++ " has come online.")) (some username)
  (jr.1, welcome :: (jr.2 ++ notifyOuts), some username)

/-- The auth phase of `handle_client`: the first record of a connection.
`ftsv` is the `full_ts()` clock value used for a new account's
`joined` field.  The middle component is the packets sent (tagged with the
normalized username naming this connection); the last is `some u` iff a
session was opened (on `none` the connection is closed). -/
def process_auth (st : ServerState) (action unameRaw pw ftsv : String) :
    ServerState × List Send × Option String :=
  let uname := pyNorm unameRaw
  if uname = "" ∨ uname.length < 2 then
    (st, [(uname, .auth false "Username must be ≥ 2 characters." none [] [])], none)
  else if action = "register" then
    if (lookupM st.users uname).isSome then
      (st, [(uname, .auth false "Username already taken." none [] [])], none)
    else
      let acct : UserData := { pw := hash_pw pw, joined := ftsv, bio := "" }
      let st' : ServerState := { st with users := updM st.users uname acct }
      open_session st' uname
  else if action = "login" then
    match lookupM st.users uname with
    | none => (st, [(uname, .auth false "User not found." none [] [])], none)
    | some u =>
      if u.pw ≠ hash_pw pw then
        (st, [(uname, .auth false "Wrong password." none [] [])], none)
      else if (lookupM st.clients uname).isSome then
        (st, [(uname, .auth false "Already logged in from another session." none [] [])], none)
      else open_session st uname
  else
    (st, [(uname, .auth false "Unknown action." none [] [])], none)

/-- `_disconnect(username, conn)` for an authenticated session. -/
def handle_disconnect (st : ServerState) (username : String) :
    ServerState × List Send :=
  let room := curRoom st username
  let st' : ServerState :=
    { st with room_users := updM st.room_users room ((ruGet st room).erase username),
              clients := delM st.clients username }
  (st', broadcast_all st'
    (.system ("◎ " ++ username ++ " went offline.")) none)

/-- One whole request the server can process: a fresh connection's auth
record, an in-session record, or a disconnect. -/
inductive Request where
  | auth (action unameRaw pw ftsv : String)
  | session (u : String) (p : InPkt)
  | disc (u : String)

/-- Process one request atomically (the server serializes all shared-state
access under one lock, and each handler runs to completion per record). -/
def applyReq (st : ServerState) (r : Request) : ServerState × List Send :=
  match r with
  | .auth a u pw f =>
    let res := process_auth st a u pw f
    (res.1, res.2.1)
  | .session u p => dispatch st u p
  | .disc u => handle_disconnect st u

/-- A request is valid in a state when its session actually exists:
the message loop and the disconnect cleanup only run for a connection
whose auth phase opened a session. -/
def validReq (st : ServerState) (r : Request) : Prop :=
  match r with
  | .auth _ _ _ _ => True
  | .session u _ => (lookupM st.clients u).isSome
  | .disc u => (lookupM st.clients u).isSome

/-- States reachable from a fresh server start. -/
inductive Reachable : ServerState → Prop where
  | init : Reachable initialState
  | step {st : ServerState} {r : Request} : Reachable st → validReq st r →
      Reachable (applyReq st r).1

/-! ## Concrete scenarios used by the claim theorems -/

/-- A fresh connection registers the account `alice` / `pw1`. -/
def regAliceReq : Request := .auth "register" "alice" "pw1" "2026-01-01 10:00:00"

/-- The server state right after `alice` registers on a fresh server. -/
def stAlice : ServerState := (applyReq initialState regAliceReq).1

/-- The packets sent while `alice` registers on a fresh server. -/
def outsAlice : List Send := (applyReq initialState regAliceReq).2

/-- Is a packet a `joined` record? -/
def isJoinedRecord : Packet → Bool
  | .joined _ _ _ _ => true
  | _ => false

/-- `alice` (fresh session) sends the room message `hello`. -/
def msgHelloPkt : InPkt := { basePkt with tag := "msg", text := "hello", tsv := "10:01" }

/-- State after `alice` (fresh session on a fresh server) sent `one`. -/
def stAliceOne : ServerState :=
  (applyReq stAlice (.session "alice"
    { basePkt with tag := "msg", text := "one", tsv := "10:02" })).1

/-- State after `alice` then also sent `two`: `general` now has the
two-message history `one`, `two`. -/
def stAliceTwo : ServerState :=
  (applyReq stAliceOne (.session "alice"
    { basePkt with tag := "msg", text := "two", tsv := "10:03" })).1

/-! ## Claim theorems -/

/-- C1.  The spec: after every successful authentication the server
auto-joins the user to `general` — membership set updated and a `joined`
record (topic, last-50 history, member list) sent.  The code violates
this: `handle_client` presets the session's room to `"general"` *before*
calling `_join_room(username, conn, "general")`, so the join's
already-in-room guard fires.  At the failing input (register `alice` on a
fresh server) the session's room is `general`, but `alice` is never added
to `general`'s membership set, the connection receives the recoverable
notice `You are already in #general.`, and no `joined` record is sent. -/
theorem C1_autojoin_skipped :
    lookupM stAlice.clients "alice" = some { room := "general" } ∧
    ruGet stAlice "general" = [] ∧
    ("alice", Packet.system "You are already in #general.") ∈ outsAlice ∧
    outsAlice.all (fun s => !(isJoinedRecord s.2)) = true := by
  decide

/-- C2.  The spec invariant: an online user's recorded current room and
the room membership sets always agree.  Violated in a reachable state:
right after `alice` registers (one `Reachable` step from the fresh
server), her session records room `general` while she is a member of no
room's membership set — in particular not of `general`'s. -/
theorem C2_room_membership_desync :
    ∃ st : ServerState, Reachable st ∧
      lookupM st.clients "alice" = some { room := "general" } ∧
      ruGet st "general" = [] ∧
      st.room_users.all (fun pr => !(pr.2.contains "alice")) = true := by
  refine ⟨stAlice, ?_, by decide, by decide, by decide⟩
  exact Reachable.step (r := regAliceReq) Reachable.init trivial

/-- C3.  The spec: a successful room message is appended to the sender's
current room's history and a `msg` record is delivered to every member of
the membership snapshot, *including the sender* (self-echo always).  The
code violates the self-echo: broadcast goes to `room_users[room]` only,
and a freshly authenticated sender is absent from it (the C1 slip), so at
the failing input (`alice` registers, then sends `hello`) the message is
appended to `general`'s history yet delivered to nobody — in particular
`alice` gets no echo. -/
theorem C3_no_self_echo :
    (lookupM stAlice.clients "alice").isSome = true ∧
    (lookupM (applyReq stAlice (.session "alice" msgHelloPkt)).1.rooms
        "general").map RoomData.history =
      some [{ fromUser := "alice", text := "hello", ts := "10:01" }] ∧
    (applyReq stAlice (.session "alice" msgHelloPkt)).2 = [] := by
  decide

/-- C6 counterexample.  The claim says `delete_room` on a default room
fails with the Protected error for *every* requester.  On the code the
owner check precedes the protected check: requester `alice` (not the
owner `system`) deleting `general` gets the NotOwner notice
`Only the owner can delete a room.` — not the Protected notice
`Cannot delete default rooms.` (the room does survive). -/
theorem C6_counterexample :
    (applyReq stAlice (.session "alice"
        { basePkt with tag := "delete_room", name := "general" })).2 =
      [("alice", Packet.system "Only the owner can delete a room.")] ∧
    (applyReq stAlice (.session "alice"
        { basePkt with tag := "delete_room", name := "general" })).1 = stAlice := by
  decide

/-- C7 counterexample.  The claim says a record with an unknown type tag
is treated as a ProtocolError and the connection is terminated.  On the
code the dispatch chain has no else-branch: at the concrete input
(`alice` online, record tagged `frobnicate`) the state is unchanged —
`alice`'s session still exists, so nothing was terminated — and no packet
at all (in particular no error) is sent. -/
theorem C7_counterexample :
    (applyReq stAlice (.session "alice" { basePkt with tag := "frobnicate" })).1
        = stAlice ∧
    (applyReq stAlice (.session "alice" { basePkt with tag := "frobnicate" })).2
        = [] ∧
    (lookupM stAlice.clients "alice").isSome = true := by
  decide

/-- C9 counterexample.  The claim says an empty-after-trim room message is
rejected *with a recoverable notice to the sender*.  On the code
`_handle_msg` silently returns on empty text: at the concrete input
(`alice` sends `"   "`) the state is unchanged and **no** packet — no
notice — is sent. -/
theorem C9_counterexample :
    (applyReq stAlice (.session "alice"
        { basePkt with tag := "msg", text := "   " })).1 = stAlice ∧
    (applyReq stAlice (.session "alice"
        { basePkt with tag := "msg", text := "   " })).2 = [] := by
  decide

/-- C10 counterexample.  The claim says a zero *or negative* `limit` in a
history request makes the server return the room's entire stored history.
For a negative limit the slice `history[-limit:]` instead *drops* leading
entries: with `general` holding the two messages `one`, `two`, a request
with `limit = -1` returns only `two`, not the entire two-message
history. -/
theorem C10_counterexample :
    (lookupM stAliceTwo.rooms "general").map (fun rd => rd.history.map Message.text)
      = some ["one", "two"] ∧
    (applyReq stAliceTwo (.session "alice"
        { basePkt with tag := "history", limit := some (-1) })).2 =
      [("alice", Packet.history "general"
        [{ fromUser := "alice", text := "two", ts := "10:03" }])] := by
  decide

/-! ## Association-list lemmas -/

theorem lookupM_updM_self {β : Type} (m : List (String × β)) (k : String) (v : β) :
    lookupM (updM m k v) k = some v := by
  induction m with
  | nil => simp [updM, lookupM]
  | cons p rest ih =>
    obtain ⟨k', v'⟩ := p
    by_cases h : k' = k
    · simp [updM, h, lookupM]
    · simp [updM, h, lookupM, ih]

theorem lookupM_updM_ne {β : Type} (m : List (String × β)) (k k' : String) (v : β)
    (h : k' ≠ k) : lookupM (updM m k v) k' = lookupM m k' := by
  have hne : ¬ k = k' := fun hk => h hk.symm
  induction m with
  | nil => simp [updM, lookupM, hne]
  | cons p rest ih =>
    obtain ⟨k'', v''⟩ := p
    by_cases hk : k'' = k
    · subst hk
      simp [updM, lookupM, hne]
    · simp only [updM, if_neg hk, lookupM]
      split <;> simp [ih]

theorem mem_updM {β : Type} {m : List (String × β)} {k : String} {v : β}
    {p : String × β} (hp : p ∈ updM m k v) : p = (k, v) ∨ p ∈ m := by
  induction m with
  | nil =>
    simp only [updM] at hp
    exact Or.inl (List.mem_singleton.1 hp)
  | cons q rest ih =>
    obtain ⟨k', v'⟩ := q
    by_cases h : k' = k
    · simp only [updM, if_pos h] at hp
      rcases List.mem_cons.1 hp with h1 | h1
      · exact Or.inl h1
      · exact Or.inr (List.mem_cons_of_mem _ h1)
    · simp only [updM, if_neg h] at hp
      rcases List.mem_cons.1 hp with h1 | h1
      · exact Or.inr (by rw [h1]; exact List.mem_cons_self _ _)
      · rcases ih h1 with h2 | h2
        · exact Or.inl h2
        · exact Or.inr (List.mem_cons_of_mem _ h2)

theorem delM_sublist {β : Type} (m : List (String × β)) (k : String) :
    (delM m k).Sublist m := by
  induction m with
  | nil => simp [delM]
  | cons q rest ih =>
    obtain ⟨k', v'⟩ := q
    by_cases h : k' = k
    · simp only [delM, if_pos h]
      exact List.sublist_cons_self _ _
    · simp only [delM, if_neg h]
      exact ih.cons₂ _

theorem mem_delM {β : Type} {m : List (String × β)} {k : String}
    {p : String × β} (hp : p ∈ delM m k) : p ∈ m :=
  (delM_sublist m k).mem hp

/-- Distinctness of the keys of an association list (the dict invariant). -/
def NodupKeys {β : Type} (m : List (String × β)) : Prop :=
  (m.map Prod.fst).Nodup

theorem mem_keys_updM {β : Type} {m : List (String × β)} {k a : String} {v : β}
    (ha : a ∈ (updM m k v).map Prod.fst) : a = k ∨ a ∈ m.map Prod.fst := by
  rcases List.mem_map.1 ha with ⟨p, hp, rfl⟩
  rcases mem_updM hp with h | h
  · exact Or.inl (by rw [h])
  · exact Or.inr (List.mem_map_of_mem _ h)

theorem nodupKeys_updM {β : Type} {m : List (String × β)} (k : String) (v : β)
    (h : NodupKeys m) : NodupKeys (updM m k v) := by
  induction m with
  | nil => simp [updM, NodupKeys]
  | cons q rest ih =>
    obtain ⟨k', v'⟩ := q
    simp only [NodupKeys, List.map_cons, List.nodup_cons] at h
    obtain ⟨hk', hrest⟩ := h
    by_cases hkk : k' = k
    · subst hkk
      have hre : updM ((k', v') :: rest) k' v = (k', v) :: rest := by simp [updM]
      rw [hre]
      exact List.nodup_cons.2 ⟨hk', hrest⟩
    · have ih' := ih hrest
      simp only [updM, if_neg hkk, NodupKeys, List.map_cons, List.nodup_cons]
      refine ⟨?_, ih'⟩
      intro hmem
      rcases mem_keys_updM hmem with h1 | h1
      · exact hkk h1
      · exact hk' h1

theorem nodupKeys_delM {β : Type} {m : List (String × β)} (k : String)
    (h : NodupKeys m) : NodupKeys (delM m k) :=
  List.Nodup.sublist ((delM_sublist m k).map Prod.fst) h

/-! ## Trimming lemmas -/

theorem capTrim_length {α : Type} (cap : Nat) (l : List α) (hc : 0 < cap) :
    (capTrim cap l).length = min l.length cap := by
  unfold capTrim pySliceFrom
  dsimp only
  by_cases h : l.length > cap
  · rw [if_pos h, if_pos (by omega : (-(cap : Int)) < 0), List.length_drop]
    have hmax : max ((l.length : Int) + -(cap : Int)) 0 = ((l.length - cap : Nat) : Int) := by
      rw [max_eq_left (by omega)]
      omega
    rw [hmax, Int.toNat_natCast]
    omega
  · rw [if_neg h]
    omega

theorem capTrim_suffix {α : Type} (cap : Nat) (l : List α) :
    List.IsSuffix (capTrim cap l) l := by
  unfold capTrim
  by_cases h : l.length > cap
  · rw [if_pos h]
    unfold pySliceFrom
    exact List.drop_suffix _ _
  · rw [if_neg h]

theorem capTrim_le {α : Type} (cap : Nat) (l : List α) (hc : 0 < cap) :
    (capTrim cap l).length ≤ cap := by
  rw [capTrim_length cap l hc]
  omega

/-! ## DM thread key symmetry -/

theorem dmKey_comm (a b : String) : dmKey a b = dmKey b a := by
  unfold dmKey
  by_cases hab : a ≤ b
  · by_cases hba : b ≤ a
    · have h : a = b := le_antisymm hab hba
      subst h; rfl
    · simp [hab, hba]
  · have hba : b ≤ a := (le_total a b).resolve_left hab
    simp [hab, hba]

/-- C8.  DM threads are keyed by the canonical unordered pair: the two
participants' queries address the same thread and carry identical
message lists.  (`a` and `b` are session usernames, hence already
normalized; the handler normalizes the `with` target the same way.) -/
theorem C8_dm_thread_symmetric (st : ServerState) (a b : String)
    (ha : pyNorm a = a) (hb : pyNorm b = b) :
    dmKey a b = dmKey b a ∧
    lookupM st.dm_history (dmKey a b) = lookupM st.dm_history (dmKey b a) ∧
    (send_dm_history st a { basePkt with tag := "dm_history", withUser := b }).2 =
      [(a, Packet.dmHistoryPkt b
        (pySliceFrom ((lookupM st.dm_history (dmKey a b)).getD []) (-50)))] ∧
    (send_dm_history st b { basePkt with tag := "dm_history", withUser := a }).2 =
      [(b, Packet.dmHistoryPkt a
        (pySliceFrom ((lookupM st.dm_history (dmKey a b)).getD []) (-50)))] := by
  refine ⟨dmKey_comm a b, by rw [dmKey_comm a b], ?_, ?_⟩
  · unfold send_dm_history
    simp [hb]
  · unfold send_dm_history
    simp [ha, dmKey_comm a b]

/-- C8 witness: the symmetry applied at `alice` / `bob` on the fresh
server state. -/
theorem C8_dm_thread_symmetric_witness :
    dmKey "alice" "bob" = dmKey "bob" "alice" ∧
    lookupM initialState.dm_history (dmKey "alice" "bob") =
      lookupM initialState.dm_history (dmKey "bob" "alice") ∧
    (send_dm_history initialState "alice"
        { basePkt with tag := "dm_history", withUser := "bob" }).2 =
      [("alice", Packet.dmHistoryPkt "bob"
        (pySliceFrom ((lookupM initialState.dm_history (dmKey "alice" "bob")).getD []) (-50)))] ∧
    (send_dm_history initialState "bob"
        { basePkt with tag := "dm_history", withUser := "alice" }).2 =
      [("bob", Packet.dmHistoryPkt "alice"
        (pySliceFrom ((lookupM initialState.dm_history (dmKey "alice" "bob")).getD []) (-50)))] :=
  C8_dm_thread_symmetric initialState "alice" "bob" (by decide) (by decide)

/-! ## State-component lemmas for the handlers -/

theorem join_room_state (st : ServerState) (u rn : String) (s : Bool) :
    (join_room st u rn s).1.rooms = st.rooms ∧
    (join_room st u rn s).1.dm_history = st.dm_history ∧
    (join_room st u rn s).1.users = st.users := by
  unfold join_room
  split
  · exact ⟨rfl, rfl, rfl⟩
  · dsimp only
    split
    · exact ⟨rfl, rfl, rfl⟩
    · exact ⟨rfl, rfl, rfl⟩

theorem join_room_clients (st : ServerState) (u rn : String) (s : Bool) :
    (join_room st u rn s).1.clients = st.clients ∨
    ∃ ci : ClientInfo, (join_room st u rn s).1.clients = updM st.clients u ci := by
  unfold join_room
  split
  · exact Or.inl rfl
  · dsimp only
    split
    · exact Or.inl rfl
    · rcases hcl : lookupM st.clients u with _ | ci
      · exact Or.inl (by simp [hcl])
      · exact Or.inr ⟨{ ci with room := rn }, by simp [hcl]⟩

theorem send_history_fst (st : ServerState) (u : String) (p : InPkt) :
    (send_history st u p).1 = st := by
  simp only [send_history]
  repeat' split
  all_goals rfl

theorem send_dm_history_fst (st : ServerState) (u : String) (p : InPkt) :
    (send_dm_history st u p).1 = st := rfl

theorem whois_fst (st : ServerState) (u : String) (p : InPkt) :
    (whois st u p).1 = st := by
  unfold whois
  cases hlk : lookupM st.users (pyNorm p.user) <;> simp [hlk]

theorem set_bio_state (st : ServerState) (u : String) (p : InPkt) :
    (set_bio st u p).1.rooms = st.rooms ∧
    (set_bio st u p).1.dm_history = st.dm_history ∧
    (set_bio st u p).1.clients = st.clients := by
  unfold set_bio
  split
  · exact ⟨rfl, rfl, rfl⟩
  · exact ⟨rfl, rfl, rfl⟩

theorem append_history_state (st : ServerState) (room : String) (e : Message) :
    (append_history st room e).dm_history = st.dm_history ∧
    (append_history st room e).clients = st.clients ∧
    (append_history st room e).users = st.users := by
  unfold append_history
  split
  · exact ⟨rfl, rfl, rfl⟩
  · exact ⟨rfl, rfl, rfl⟩

theorem handle_msg_state (st : ServerState) (u : String) (p : InPkt) :
    (handle_msg st u p).1.dm_history = st.dm_history ∧
    (handle_msg st u p).1.clients = st.clients ∧
    (handle_msg st u p).1.users = st.users := by
  unfold handle_msg
  dsimp only
  split
  · exact ⟨rfl, rfl, rfl⟩
  · split
    · exact ⟨rfl, rfl, rfl⟩
    · exact append_history_state st (curRoom st u) _

theorem handle_dm_state (st : ServerState) (u : String) (p : InPkt) :
    (handle_dm st u p).1.rooms = st.rooms ∧
    (handle_dm st u p).1.clients = st.clients ∧
    (handle_dm st u p).1.users = st.users := by
  unfold handle_dm
  dsimp only
  split
  · exact ⟨rfl, rfl, rfl⟩
  · split
    · exact ⟨rfl, rfl, rfl⟩
    · exact ⟨rfl, rfl, rfl⟩

/-! ## The history-cap invariant (C5) -/

/-- Every room history within the 500 cap and every DM thread within the
200 cap. -/
def histCaps (st : ServerState) : Prop :=
  (∀ pr ∈ st.rooms, pr.2.history.length ≤ 500) ∧
  (∀ pd ∈ st.dm_history, pd.2.length ≤ 200)

theorem histCaps_of_eq {st st' : ServerState} (h : histCaps st)
    (hr : st'.rooms = st.rooms) (hd : st'.dm_history = st.dm_history) :
    histCaps st' := by
  refine ⟨?_, ?_⟩
  · rw [hr]; exact h.1
  · rw [hd]; exact h.2

theorem histCaps_append_history (st : ServerState) (room : String) (e : Message)
    (h : histCaps st) : histCaps (append_history st room e) := by
  unfold append_history
  split
  · exact h
  · rename_i rd hrd
    refine ⟨?_, h.2⟩
    intro pr hpr
    rcases mem_updM hpr with h1 | h1
    · rw [h1]
      exact capTrim_le 500 _ (by omega)
    · exact h.1 pr h1

theorem histCaps_join_room (st : ServerState) (u rn : String) (s : Bool)
    (h : histCaps st) : histCaps (join_room st u rn s).1 :=
  histCaps_of_eq h (join_room_state st u rn s).1 (join_room_state st u rn s).2.1

theorem histCaps_handle_msg (st : ServerState) (u : String) (p : InPkt)
    (h : histCaps st) : histCaps (handle_msg st u p).1 := by
  unfold handle_msg
  dsimp only
  split
  · exact h
  · split
    · exact h
    · exact histCaps_append_history st (curRoom st u) _ h

theorem histCaps_handle_dm (st : ServerState) (u : String) (p : InPkt)
    (h : histCaps st) : histCaps (handle_dm st u p).1 := by
  unfold handle_dm
  dsimp only
  split
  · exact h
  · split
    · exact h
    · refine ⟨h.1, ?_⟩
      intro pd hpd
      rcases mem_updM hpd with h1 | h1
      · rw [h1]
        exact capTrim_le 200 _ (by omega)
      · exact h.2 pd h1

theorem histCaps_evict (ev : List String) (acc : ServerState × List Send)
    (h : histCaps acc.1) : histCaps (ev.foldl evictStep acc).1 := by
  induction ev generalizing acc with
  | nil => exact h
  | cons a rest ih =>
    refine ih _ ?_
    unfold evictStep
    split
    · exact histCaps_join_room _ a "general" false h
    · exact h

theorem histCaps_create_room (st : ServerState) (u : String) (p : InPkt)
    (h : histCaps st) : histCaps (create_room st u p).1 := by
  unfold create_room
  dsimp only
  split
  · exact h
  · split
    · exact h
    · refine histCaps_join_room _ u _ false ⟨?_, h.2⟩
      intro pr hpr
      rcases mem_updM hpr with h1 | h1
      · rw [h1]; simp
      · exact h.1 pr h1

theorem histCaps_delete_room (st : ServerState) (u : String) (p : InPkt)
    (h : histCaps st) : histCaps (delete_room st u p).1 := by
  unfold delete_room
  dsimp only
  split
  · exact h
  · split
    · exact h
    · split
      · exact h
      · have hfold := histCaps_evict (ruGet st (pyNorm p.name)) (st, []) h
        refine ⟨?_, hfold.2⟩
        intro pr hpr
        exact hfold.1 pr (mem_delM hpr)

theorem histCaps_open_session (st : ServerState) (u : String)
    (h : histCaps st) : histCaps (open_session st u).1 := by
  unfold open_session
  dsimp only
  exact histCaps_join_room _ u "general" false (histCaps_of_eq h rfl rfl)

theorem histCaps_process_auth (st : ServerState) (a uraw pw f : String)
    (h : histCaps st) : histCaps (process_auth st a uraw pw f).1 := by
  unfold process_auth
  dsimp only
  split
  · exact h
  · split
    · split
      · exact h
      · exact histCaps_open_session _ _ (histCaps_of_eq h rfl rfl)
    · split
      · split
        · exact h
        · split
          · exact h
          · split
            · exact h
            · exact histCaps_open_session _ _ h
      · exact h

theorem histCaps_dispatch (st : ServerState) (u : String) (p : InPkt)
    (h : histCaps st) : histCaps (dispatch st u p).1 := by
  unfold dispatch
  by_cases h1 : p.tag = "msg"
  · rw [if_pos h1]
    exact histCaps_handle_msg st u p h
  · rw [if_neg h1]
    by_cases h2 : p.tag = "join"
    · rw [if_pos h2]
      exact histCaps_join_room st u _ _ h
    · rw [if_neg h2]
      by_cases h3 : p.tag = "create_room"
      · rw [if_pos h3]
        exact histCaps_create_room st u p h
      · rw [if_neg h3]
        by_cases h4 : p.tag = "delete_room"
        · rw [if_pos h4]
          exact histCaps_delete_room st u p h
        · rw [if_neg h4]
          by_cases h5 : p.tag = "dm"
          · rw [if_pos h5]
            exact histCaps_handle_dm st u p h
          · rw [if_neg h5]
            by_cases h6 : p.tag = "history"
            · rw [if_pos h6]
              rw [send_history_fst]; exact h
            · rw [if_neg h6]
              by_cases h7 : p.tag = "dm_history"
              · rw [if_pos h7]
                rw [send_dm_history_fst]; exact h
              · rw [if_neg h7]
                by_cases h8 : p.tag = "rooms"
                · rw [if_pos h8]
                  exact h
                · rw [if_neg h8]
                  by_cases h9 : p.tag = "online"
                  · rw [if_pos h9]
                    exact h
                  · rw [if_neg h9]
                    by_cases h10 : p.tag = "whois"
                    · rw [if_pos h10]
                      rw [whois_fst]; exact h
                    · rw [if_neg h10]
                      by_cases h11 : p.tag = "set_bio"
                      · rw [if_pos h11]
                        exact histCaps_of_eq h (set_bio_state st u p).1 (set_bio_state st u p).2.1
                      · rw [if_neg h11]
                        by_cases h12 : p.tag = "ping"
                        · rw [if_pos h12]
                          exact h
                        · rw [if_neg h12]
                          exact h

theorem histCaps_disconnect (st : ServerState) (u : String)
    (h : histCaps st) : histCaps (handle_disconnect st u).1 :=
  histCaps_of_eq h rfl rfl

theorem histCaps_step (st : ServerState) (r : Request) (h : histCaps st) :
    histCaps (applyReq st r).1 := by
  cases r with
  | auth a uraw pw f => exact histCaps_process_auth st a uraw pw f h
  | session u p => exact histCaps_dispatch st u p h
  | disc u => exact histCaps_disconnect st u h

theorem histCaps_reachable (st : ServerState) (h : Reachable st) : histCaps st := by
  induction h with
  | init => exact ⟨by decide, by decide⟩
  | step hst hv ih => exact histCaps_step _ _ ih

/-- C5.  In every reachable state every room history holds at most 500
messages and every DM thread at most 200; and the trimming operation used
on every append keeps a suffix of the appended list of length
`min (n+1) cap` — i.e. it evicts oldest-first and retains exactly the
most recent entries in arrival order. -/
theorem C5_history_caps :
    (∀ st, Reachable st →
      (∀ pr ∈ st.rooms, pr.2.history.length ≤ 500) ∧
      (∀ pd ∈ st.dm_history, pd.2.length ≤ 200)) ∧
    (∀ (l : List Message) (e : Message),
      List.IsSuffix (capTrim 500 (l ++ [e])) (l ++ [e]) ∧
      (capTrim 500 (l ++ [e])).length = min (l.length + 1) 500) ∧
    (∀ (l : List DMessage) (e : DMessage),
      List.IsSuffix (capTrim 200 (l ++ [e])) (l ++ [e]) ∧
      (capTrim 200 (l ++ [e])).length = min (l.length + 1) 200) := by
  refine ⟨fun st h => histCaps_reachable st h,
    fun l e => ⟨capTrim_suffix _ _, ?_⟩, fun l e => ⟨capTrim_suffix _ _, ?_⟩⟩
  · rw [capTrim_length _ _ (by omega)]
    simp
  · rw [capTrim_length _ _ (by omega)]
    simp

/-- C5 witness: the caps hold at the concrete reachable state where
`alice` has sent two messages, and the trim law at a concrete list. -/
theorem C5_history_caps_witness :
    ((∀ pr ∈ stAliceTwo.rooms, pr.2.history.length ≤ 500) ∧
     (∀ pd ∈ stAliceTwo.dm_history, pd.2.length ≤ 200)) ∧
    (capTrim 500 ([] ++ [({ fromUser := "alice", text := "one", ts := "t" } : Message)])).length
      = min (0 + 1) 500 := by
  refine ⟨C5_history_caps.1 stAliceTwo ?_, (C5_history_caps.2.1 [] _).2⟩
  exact Reachable.step (r := Request.session "alice"
      { basePkt with tag := "msg", text := "two", tsv := "10:03" })
    (Reachable.step (r := Request.session "alice"
        { basePkt with tag := "msg", text := "one", tsv := "10:02" })
      (Reachable.step (r := regAliceReq) Reachable.init trivial)
      (show (lookupM stAlice.clients "alice").isSome = true by decide))
    (show (lookupM stAliceOne.clients "alice").isSome = true by decide)

/-! ## Client-key distinctness machinery (C4) -/

theorem join_room_clients_nodup (st : ServerState) (u rn : String) (s : Bool)
    (h : NodupKeys st.clients) : NodupKeys (join_room st u rn s).1.clients := by
  rcases join_room_clients st u rn s with hc | ⟨ci, hc⟩
  · rw [hc]; exact h
  · rw [hc]; exact nodupKeys_updM u ci h

theorem evict_clients_nodup (ev : List String) (acc : ServerState × List Send)
    (h : NodupKeys acc.1.clients) :
    NodupKeys ((ev.foldl evictStep acc).1).clients := by
  induction ev generalizing acc with
  | nil => exact h
  | cons a rest ih =>
    refine ih _ ?_
    unfold evictStep
    split
    · exact join_room_clients_nodup _ a "general" false h
    · exact h

theorem create_room_clients_nodup (st : ServerState) (u : String) (p : InPkt)
    (h : NodupKeys st.clients) : NodupKeys (create_room st u p).1.clients := by
  unfold create_room
  dsimp only
  split
  · exact h
  · split
    · exact h
    · exact join_room_clients_nodup _ u _ false h

theorem delete_room_clients_nodup (st : ServerState) (u : String) (p : InPkt)
    (h : NodupKeys st.clients) : NodupKeys (delete_room st u p).1.clients := by
  unfold delete_room
  dsimp only
  split
  · exact h
  · split
    · exact h
    · split
      · exact h
      · exact evict_clients_nodup (ruGet st (pyNorm p.name)) (st, []) h

theorem open_session_clients_nodup (st : ServerState) (u : String)
    (h : NodupKeys st.clients) : NodupKeys (open_session st u).1.clients := by
  unfold open_session
  dsimp only
  exact join_room_clients_nodup _ u "general" false (nodupKeys_updM u { room := "general" } h)

theorem process_auth_clients_nodup (st : ServerState) (a uraw pw f : String)
    (h : NodupKeys st.clients) : NodupKeys (process_auth st a uraw pw f).1.clients := by
  unfold process_auth
  dsimp only
  split
  · exact h
  · split
    · split
      · exact h
      · exact open_session_clients_nodup _ _ h
    · split
      · split
        · exact h
        · split
          · exact h
          · split
            · exact h
            · exact open_session_clients_nodup _ _ h
      · exact h

theorem dispatch_clients_nodup (st : ServerState) (u : String) (p : InPkt)
    (h : NodupKeys st.clients) : NodupKeys (dispatch st u p).1.clients := by
  unfold dispatch
  by_cases h1 : p.tag = "msg"
  · rw [if_pos h1, (handle_msg_state st u p).2.1]; exact h
  · rw [if_neg h1]
    by_cases h2 : p.tag = "join"
    · rw [if_pos h2]; exact join_room_clients_nodup st u _ _ h
    · rw [if_neg h2]
      by_cases h3 : p.tag = "create_room"
      · rw [if_pos h3]; exact create_room_clients_nodup st u p h
      · rw [if_neg h3]
        by_cases h4 : p.tag = "delete_room"
        · rw [if_pos h4]; exact delete_room_clients_nodup st u p h
        · rw [if_neg h4]
          by_cases h5 : p.tag = "dm"
          · rw [if_pos h5, (handle_dm_state st u p).2.1]; exact h
          · rw [if_neg h5]
            by_cases h6 : p.tag = "history"
            · rw [if_pos h6, send_history_fst]; exact h
            · rw [if_neg h6]
              by_cases h7 : p.tag = "dm_history"
              · rw [if_pos h7, send_dm_history_fst]; exact h
              · rw [if_neg h7]
                by_cases h8 : p.tag = "rooms"
                · rw [if_pos h8]; exact h
                · rw [if_neg h8]
                  by_cases h9 : p.tag = "online"
                  · rw [if_pos h9]; exact h
                  · rw [if_neg h9]
                    by_cases h10 : p.tag = "whois"
                    · rw [if_pos h10, whois_fst]; exact h
                    · rw [if_neg h10]
                      by_cases h11 : p.tag = "set_bio"
                      · rw [if_pos h11, (set_bio_state st u p).2.2]; exact h
                      · rw [if_neg h11]
                        by_cases h12 : p.tag = "ping"
                        · rw [if_pos h12]; exact h
                        · rw [if_neg h12]; exact h

theorem disconnect_clients_nodup (st : ServerState) (u : String)
    (h : NodupKeys st.clients) : NodupKeys (handle_disconnect st u).1.clients :=
  nodupKeys_delM u h

theorem clients_nodup_step (st : ServerState) (r : Request)
    (h : NodupKeys st.clients) : NodupKeys (applyReq st r).1.clients := by
  cases r with
  | auth a uraw pw f => exact process_auth_clients_nodup st a uraw pw f h
  | session u p => exact dispatch_clients_nodup st u p h
  | disc u => exact disconnect_clients_nodup st u h

theorem clients_nodup_reachable (st : ServerState) (h : Reachable st) :
    NodupKeys st.clients := by
  induction h with
  | init => exact List.nodup_nil
  | step hst hv ih => exact clients_nodup_step _ _ ih

/-- C4.  (i) In every reachable state the session map has pairwise
distinct usernames — at most one live session per username.  (ii) A login
attempt for a username that is already online leaves the whole state
unchanged (no session is created or replaced) and opens no session; if
the password is correct for the stored account, the negative auth
acknowledgment is exactly the already-online message. -/
theorem C4_single_session :
    (∀ st, Reachable st → NodupKeys st.clients) ∧
    (∀ (st : ServerState) (uraw pw f : String),
      2 ≤ (pyNorm uraw).length →
      (lookupM st.clients (pyNorm uraw)).isSome = true →
      (process_auth st "login" uraw pw f).1 = st ∧
      (process_auth st "login" uraw pw f).2.2 = none ∧
      (∀ acct : UserData, lookupM st.users (pyNorm uraw) = some acct →
        acct.pw = hash_pw pw →
        (process_auth st "login" uraw pw f).2.1 =
          [(pyNorm uraw,
            Packet.auth false "Already logged in from another session." none [] [])])) := by
  refine ⟨clients_nodup_reachable, ?_⟩
  intro st uraw pw f hlen hon
  have hguard : ¬ (pyNorm uraw = "" ∨ (pyNorm uraw).length < 2) := by
    rintro (h | h)
    · rw [h] at hlen; simp at hlen
    · omega
  unfold process_auth
  dsimp only
  rw [if_neg hguard, if_neg (by decide : ¬ ("login" = "register")),
    if_pos (rfl : "login" = "login")]
  rcases hu : lookupM st.users (pyNorm uraw) with _ | acct
  · exact ⟨rfl, rfl, fun a ha => by cases ha⟩
  · dsimp only
    by_cases hpw : acct.pw ≠ hash_pw pw
    · rw [if_pos hpw]
      refine ⟨rfl, rfl, ?_⟩
      intro a ha hapw
      cases Option.some_inj.1 ha
      exact absurd hapw hpw
    · rw [if_neg hpw, if_pos hon]
      exact ⟨rfl, rfl, fun a ha hapw => rfl⟩

/-- C4 witness: with `alice` already online, a second `login alice/pw1`
changes nothing, opens no session, and yields the already-online
acknowledgment. -/
theorem C4_single_session_witness :
    NodupKeys stAlice.clients ∧
    (process_auth stAlice "login" "alice" "pw1" "T").1 = stAlice ∧
    (process_auth stAlice "login" "alice" "pw1" "T").2.2 = none ∧
    (process_auth stAlice "login" "alice" "pw1" "T").2.1 =
      [(pyNorm "alice",
        Packet.auth false "Already logged in from another session." none [] [])] := by
  have h2 := C4_single_session.2 stAlice "alice" "pw1" "T" (by decide) (by decide)
  refine ⟨C4_single_session.1 stAlice
      (Reachable.step (r := regAliceReq) Reachable.init trivial),
    h2.1, h2.2.1, ?_⟩
  exact h2.2.2 { pw := hash_pw "pw1", joined := "2026-01-01 10:00:00", bio := "" }
    (by decide) rfl

/-- C6 amended.  `delete_room` on a default room never removes anything —
the state is unchanged — but the notice depends on the requester: the
owner check runs *before* the protected check, so the requester gets the
Protected notice iff they are the room's owner (`system`), and the
NotOwner notice otherwise. -/
theorem C6_amended (st : ServerState) (u : String) (p : InPkt) (rd : RoomData)
    (hname : pyNorm p.name = "general" ∨ pyNorm p.name = "random" ∨
      pyNorm p.name = "tech")
    (hlook : lookupM st.rooms (pyNorm p.name) = some rd) :
    (delete_room st u p).1 = st ∧
    lookupM (delete_room st u p).1.rooms (pyNorm p.name) = some rd ∧
    (delete_room st u p).2 =
      [(u, Packet.system (if rd.owner = u then "Cannot delete default rooms."
        else "Only the owner can delete a room."))] := by
  unfold delete_room
  dsimp only
  rw [hlook]
  dsimp only
  by_cases how : rd.owner = u
  · rw [if_neg (by simp [how]), if_pos hname, if_pos how]
    exact ⟨rfl, hlook, rfl⟩
  · rw [if_pos how, if_neg how]
    exact ⟨rfl, hlook, rfl⟩

/-- C6 witness: `alice` (not the owner) deleting `general` on the fresh
server changes nothing and receives the NotOwner notice. -/
theorem C6_amended_witness :
    (delete_room initialState "alice"
        { basePkt with tag := "delete_room", name := "general" }).1 = initialState ∧
    lookupM (delete_room initialState "alice"
        { basePkt with tag := "delete_room", name := "general" }).1.rooms
        (pyNorm "general") =
      some { topic := "General chat for everyone", history := [], owner := "system" } ∧
    (delete_room initialState "alice"
        { basePkt with tag := "delete_room", name := "general" }).2 =
      [("alice", Packet.system "Only the owner can delete a room.")] :=
  C6_amended initialState "alice" _
    { topic := "General chat for everyone", history := [], owner := "system" }
    (Or.inl (by decide)) (by decide)

/-- C7 amended.  A record whose type tag is none of the twelve known tags
is silently ignored: the dispatch falls through every branch, no packet is
sent, no state changes, and the connection's read loop keeps running. -/
theorem C7_amended (st : ServerState) (u : String) (p : InPkt)
    (h : ¬ p.tag ∈ knownTags) : dispatch st u p = (st, []) := by
  simp only [knownTags, List.mem_cons, List.not_mem_nil, or_false] at h
  push_neg at h
  obtain ⟨h1, h2, h3, h4, h5, h6, h7, h8, h9, h10, h11, h12⟩ := h
  unfold dispatch
  rw [if_neg h1, if_neg h2, if_neg h3, if_neg h4, if_neg h5, if_neg h6,
    if_neg h7, if_neg h8, if_neg h9, if_neg h10, if_neg h11, if_neg h12]

/-- C7 amended witness at the tag `frobnicate` with `alice` online. -/
theorem C7_amended_witness :
    dispatch stAlice "alice" { basePkt with tag := "frobnicate" } = (stAlice, []) :=
  C7_amended stAlice "alice" _ (by decide)

/-- C9 amended.  `_handle_msg` rejects empty-after-trim text *silently* —
state unchanged, no notice — and rejects text longer than 1000 characters
with the too-long notice, state unchanged; the session is untouched in
both cases. -/
theorem C9_amended (st : ServerState) (u : String) (p : InPkt) :
    (pyStrip p.text = "" → handle_msg st u p = (st, [])) ∧
    (1000 < (pyStrip p.text).length →
      handle_msg st u p =
        (st, [(u, Packet.system "Message too long (max 1000 chars).")])) := by
  constructor
  · intro h
    unfold handle_msg
    dsimp only
    rw [if_pos h]
  · intro h
    have hne : ¬ (pyStrip p.text = "") := by
      intro he
      rw [he] at h
      exact absurd h (by decide)
    unfold handle_msg
    dsimp only
    rw [if_neg hne, if_pos h]

/-- A room-message record carrying 1001 characters of text. -/
def longMsgPkt : InPkt := { basePkt with tag := "msg", text := String.mk (List.replicate 1001 'x') }

set_option maxRecDepth 100000 in
/-- C9 witness: whitespace-only text is dropped with no notice; a
1001-character text draws the too-long notice; neither changes state. -/
theorem C9_amended_witness :
    handle_msg stAlice "alice" { basePkt with tag := "msg", text := "  " } =
      (stAlice, []) ∧
    handle_msg stAlice "alice" longMsgPkt =
      (stAlice, [("alice", Packet.system "Message too long (max 1000 chars).")]) := by
  constructor
  · exact (C9_amended stAlice "alice" _).1 (by decide)
  · exact (C9_amended stAlice "alice" _).2 (by decide)

theorem pySliceFrom_neg_of_nonpos {α : Type} (l : List α) (z : Int) (hz : z ≤ 0) :
    pySliceFrom l (-z) = l.drop z.natAbs := by
  unfold pySliceFrom
  dsimp only
  rw [if_neg (by omega : ¬ (-z < 0))]
  by_cases h : -z ≤ (l.length : Int)
  · rw [min_eq_left h]
    congr 1
    omega
  · rw [min_eq_right (by omega), Int.toNat_natCast, List.drop_length]
    symm
    exact List.drop_eq_nil_of_le (by omega)

/-- C10 amended.  In a history request only positive limits are clamped
to 200; a limit `z ≤ 0` passes through `min` untouched and the slice
`history[-z:]` *drops* the first `|z|` entries: a limit of `0` returns
the entire stored history, while a negative limit returns the history
with its `|z|` oldest entries removed (possibly the empty list) — not
the entire history. -/
theorem C10_amended (st : ServerState) (u : String) (p : InPkt)
    (r : String) (rd : RoomData) (z : Int)
    (hroom : p.room = some r) (hr : r ≠ "")
    (hlook : lookupM st.rooms r = some rd)
    (hlim : p.limit = some z) (hz : z ≤ 0) :
    send_history st u p =
      (st, [(u, Packet.history r (rd.history.drop z.natAbs))]) := by
  unfold send_history
  rw [hroom, hlim]
  dsimp only
  rw [if_neg hr, Option.getD_some, min_eq_left (by omega : z ≤ (200 : Int)), hlook]
  dsimp only
  rw [pySliceFrom_neg_of_nonpos rd.history z hz]

/-- A history request for `general` with limit `-1`. -/
def histNegPkt : InPkt := { basePkt with tag := "history", room := some "general", limit := some (-1) }

/-- A history request for `general` with limit `0`. -/
def histZeroPkt : InPkt := { basePkt with tag := "history", room := some "general", limit := some 0 }

/-- The room record of `general` in `stAliceTwo`. -/
def generalTwoRD : RoomData :=
  { topic := "General chat for everyone",
    history := [{ fromUser := "alice", text := "one", ts := "10:02" },
      { fromUser := "alice", text := "two", ts := "10:03" }],
    owner := "system" }

/-- C10 witness: with `general` holding `one`, `two`, limit `-1` returns
only `two` (first entry dropped), and limit `0` returns both. -/
theorem C10_amended_witness :
    send_history stAliceTwo "alice" histNegPkt =
      (stAliceTwo, [("alice", Packet.history "general"
        [{ fromUser := "alice", text := "two", ts := "10:03" }])]) ∧
    send_history stAliceTwo "alice" histZeroPkt =
      (stAliceTwo, [("alice", Packet.history "general"
        [{ fromUser := "alice", text := "one", ts := "10:02" },
         { fromUser := "alice", text := "two", ts := "10:03" }])]) := by
  constructor
  · exact C10_amended stAliceTwo "alice" histNegPkt "general" generalTwoRD
      (-1) rfl (by decide) (by decide) rfl (by omega)
  · exact C10_amended stAliceTwo "alice" histZeroPkt "general" generalTwoRD
      0 rfl (by decide) (by decide) rfl (by omega)
